import Mathlib

/-!
Shallow embedding of the recommendation-job pipeline and taste-bucketing
engine of the musicatlas repository (src/app/routers/recs.py,
src/app/routers/taste.py, src/app/services/spotify_enrichment.py), together
with proofs about the claims on that code.

Python dicts are modelled as insertion-ordered association lists with
unique keys; `datetime.utcnow()` is modelled by passing the current time
(in minutes) explicitly to every operation that reads the clock; external
collaborators (MusicBrainz lookup, the ranking oracle, the Spotify catalog
search) are modelled as oracle functions supplied as parameters; Python
exceptions are modelled with `Except`.
-/

namespace MusicAtlas

/-! ### Association lists: the model of Python dicts.

`alSet` mirrors `d[k] = v`: it replaces the value at the first matching key
in place (keeping its position, as Python dicts do) and appends a fresh key
at the end. `alGet` mirrors `d.get(k)`. -/

def alGet {κ β : Type} [DecidableEq κ] : List (κ × β) → κ → Option β
  | [], _ => none
  | (k, v) :: rest, key => if k = key then some v else alGet rest key

def alSet {κ β : Type} [DecidableEq κ] : List (κ × β) → κ → β → List (κ × β)
  | [], key, val => [(key, val)]
  | (k, v) :: rest, key, val =>
      if k = key then (k, val) :: rest else (k, v) :: alSet rest key val

def alKeys {κ β : Type} (d : List (κ × β)) : List κ := d.map Prod.fst

/-! ### Identity resolver (src/app/routers/recs.py, resolve_mb_artists_from_spotify) -/

/-- Pydantic model `SimpleArtist` from recs.py. -/
structure SimpleArtist where
  name : String
  popularity : Option Int := none
  genres : Option (List String) := none
deriving DecidableEq, Repr

/-- Outcome of one call to `fetch_musicbrainz_artist_full(name)`, the
external lookup used by the resolver.  `raises` models the call raising an
exception; `notFound` models a falsy result; `found internalId` models a
record whose `mb_internal_id` field is the given int (`none` when the field
is missing or not an int). -/
inductive FetchOutcome where
  | raises
  | notFound
  | found (internalId : Option Int)
deriving DecidableEq, Repr

/-- `resolve_mb_artists_from_spotify` from recs.py.  The genre upsert in the
source is a write to an external store whose failure is swallowed; it does
not affect the returned triple and is therefore not part of the state here.
Returns `(mb_numeric_ids, resolved_names, missed_names)`. -/
def resolve_mb_artists_from_spotify (fetch : String → FetchOutcome) :
    List SimpleArtist → List Int × List String × List String
  | [] => ([], [], [])
  | artist :: rest =>
      let (ids, res, mis) := resolve_mb_artists_from_spotify fetch rest
      match fetch artist.name with
      | .raises => (ids, res, mis)
      | .notFound => (ids, res, artist.name :: mis)
      | .found (some n) => (n :: ids, artist.name :: res, mis)
      | .found none => (ids, res, artist.name :: mis)

/-- The order-preserving dedup loop used in recs.py (and `_dedup_ordered`
in taste.py): keep the first occurrence of every id. -/
def dedupOrdered (l : List Int) : List Int :=
  go l []
where
  go : List Int → List Int → List Int
    | [], _ => []
    | x :: rest, seen =>
        if x ∈ seen then go rest seen else x :: go rest (x :: seen)

/-! ### Job registry (src/app/routers/recs.py) -/

/-- Timestamps in minutes, standing for `datetime.utcnow()` values. -/
abbrev Time := Nat

def JOB_TTL_MINUTES : Nat := 60

/-- `JobProgress` dataclass. -/
structure JobProgress where
  stage : String := "queued"
  counts : List (String × Nat) := []
deriving DecidableEq, Repr

/-- `HTTPException(status_code, detail)`. -/
structure HTTPError where
  status_code : Nat
  detail : String
deriving DecidableEq, Repr

/-! ### Spotify album enrichment (src/app/services/spotify_enrichment.py) -/

/-- The fields of a Spotify catalog search candidate that the enrichment
code consumes (`items` elements): `item.get("id")`, `item.get("name")`,
`item.get("release_date")`, `item.get("release_date_precision")`,
`images[*]["url"]` and `external_urls["spotify"]`. -/
structure SpotifyAlbumItem where
  id : Option String := none
  name : Option String := none
  release_date : Option String := none
  release_date_precision : Option String := none
  image_urls : List String := []
  spotify_url : Option String := none
deriving DecidableEq, Repr

/-- The six `spotify_*` fields merged into a row on a match. -/
structure SpotifyEnrichment where
  spotify_album_id : Option String := none
  spotify_url : Option String := none
  spotify_image_url : Option String := none
  spotify_album_name : Option String := none
  spotify_release_date : Option String := none
  spotify_release_date_precision : Option String := none
deriving DecidableEq, Repr

/-- Gregorian leap year, as used by `datetime.date` validity checking. -/
def isLeapYear (y : Nat) : Bool :=
  (y % 4 = 0 && y % 100 != 0) || y % 400 = 0

def daysInMonth (y m : Nat) : Nat :=
  if m = 2 then (if isLeapYear y then 29 else 28)
  else if m = 4 ∨ m = 6 ∨ m = 9 ∨ m = 11 then 30
  else 31

/-- Split a character list on the `-` separator (the shape `strptime` with
format `%Y-%m-%d` demands). -/
def splitDash : List Char → List (List Char)
  | [] => [[]]
  | c :: rest =>
      if c = '-' then [] :: splitDash rest
      else
        match splitDash rest with
        | [] => [[c]]
        | g :: gs => (c :: g) :: gs

/-- Decimal value of a digit string. -/
def digitsToNat (cs : List Char) : Nat :=
  cs.foldl (fun acc c => acc * 10 + (c.toNat - 48)) 0

/-- `datetime.strptime(s, "%Y-%m-%d").date()`: four digit year, one or two
digit month in 1..12, one or two digit day, validated against the month
length (an invalid date raises, which `_coerce_release_date` turns into
`None`).  A valid date `(y, m, d)` is encoded as `y * 10000 + m * 100 + d`,
which orders exactly like Python `date` comparison (lexicographic on
year, month, day). -/
def parseYMD (s : String) : Option Nat :=
  match splitDash s.data with
  | [ys, ms, ds] =>
      if ys.length = 4 && ys.all Char.isDigit
          && 1 ≤ ms.length && ms.length ≤ 2 && ms.all Char.isDigit
          && 1 ≤ ds.length && ds.length ≤ 2 && ds.all Char.isDigit then
        let y := digitsToNat ys
        let m := digitsToNat ms
        let d := digitsToNat ds
        if 1 ≤ y && 1 ≤ m && m ≤ 12 && 1 ≤ d && d ≤ daysInMonth y m then
          some (y * 10000 + m * 100 + d)
        else none
      else none
  | _ => none

/-- `_coerce_release_date` from spotify_enrichment.py: pad the string to a
full date according to the declared precision, then parse; any failure
yields `none`. -/
def coerceReleaseDate (release_date : Option String) (precision : Option String) :
    Option Nat :=
  match release_date with
  | none => none
  | some rd =>
      if rd = "" then none
      else
        let padded :=
          if precision = some "year" then rd ++ "-01-01"
          else if precision = some "month" then rd ++ "-01"
          else rd
        parseYMD padded

/-- The release date of an item as the selection loop parses it. -/
def itemDate (item : SpotifyAlbumItem) : Option Nat :=
  coerceReleaseDate item.release_date item.release_date_precision

/-- The loop body of `_choose_latest_album`, with the running pair
`(best_item, best_date)` made explicit. -/
def chooseLatestGo : List SpotifyAlbumItem → Option SpotifyAlbumItem → Option Nat →
    Option SpotifyAlbumItem × Option Nat
  | [], best, bestDate => (best, bestDate)
  | item :: rest, best, bestDate =>
      match itemDate item, best, bestDate with
      | none, none, _ => chooseLatestGo rest (some item) bestDate
      | none, some b, _ => chooseLatestGo rest (some b) bestDate
      | some d, _, none => chooseLatestGo rest (some item) (some d)
      | some d, b, some bd =>
          if bd < d then chooseLatestGo rest (some item) (some d)
          else chooseLatestGo rest b (some bd)

/-- `_choose_latest_album` from spotify_enrichment.py. -/
def chooseLatestAlbum (items : List SpotifyAlbumItem) :
    Option SpotifyAlbumItem × Option Nat :=
  chooseLatestGo items none none

/-- The module-level `_album_enrichment_cache`: normalized
`(artist, album)` key to payload-or-negative. -/
abbrev EnrichCache := List ((String × String) × Option SpotifyEnrichment)

/-- `_normalize_key` from spotify_enrichment.py. -/
def normalizeKey (artist_name album_name : String) : String × String :=
  (artist_name.trim.toLower, album_name.trim.toLower)

/-- A Spotify catalog search oracle: `search_spotify_albums_catalog`
restricted to the `(album_name, artist_name)` arguments (the source always
passes `limit=10, market="DE"`); `Except.error` models the call raising. -/
abbrev SearchOracle := String → String → Except Unit (List SpotifyAlbumItem)

/-- `enrich_album_from_spotify` from spotify_enrichment.py, with the global
cache threaded explicitly. -/
def enrich_album_from_spotify (search : SearchOracle) (cache : EnrichCache)
    (artist_name album_name : String) :
    Except Unit (Option SpotifyEnrichment × EnrichCache) :=
  let key := normalizeKey artist_name album_name
  match alGet cache key with
  | some cached => .ok (cached, cache)
  | none =>
      match search album_name artist_name with
      | .error e => .error e
      | .ok items =>
          if items = [] then .ok (none, alSet cache key none)
          else
            match chooseLatestAlbum items with
            | (none, _) => .ok (none, alSet cache key none)
            | (some chosen, _) =>
                let payload : SpotifyEnrichment :=
                  { spotify_album_id := chosen.id
                    spotify_url := chosen.spotify_url
                    spotify_image_url := chosen.image_urls.head?
                    spotify_album_name := chosen.name
                    spotify_release_date := chosen.release_date
                    spotify_release_date_precision := chosen.release_date_precision }
                .ok (some payload, alSet cache key (some payload))

/-- A recommendation row as the enrichment and job code sees it: the two
name fields it reads, the block of `spotify_*` fields `row.update` writes,
and an opaque tag standing for all other oracle-supplied columns. -/
structure Row where
  artist_name : Option String := none
  release_group_name : Option String := none
  enrichment : Option SpotifyEnrichment := none
  extra : Nat := 0
deriving DecidableEq, Repr

/-- One iteration of the `enrich_albums_with_spotify` loop on `rows[idx]`:
skip rows with a blank artist or album name; a per-row exception is caught
and the row skipped; a falsy (absent) enrichment leaves the row untouched. -/
def enrichRowStep (search : SearchOracle) (cache : EnrichCache) (row : Row) :
    Row × EnrichCache :=
  let artist := (row.artist_name.getD "").trim
  let album := (row.release_group_name.getD "").trim
  if artist = "" ∨ album = "" then (row, cache)
  else
    match enrich_album_from_spotify search cache artist album with
    | .error _ => (row, cache)
    | .ok (none, cache') => (row, cache')
    | .ok (some payload, cache') => ({ row with enrichment := some payload }, cache')

/-- `for idx in range(limit): ...` over the row list, threading the cache;
rows past the limit are left as they are. -/
def enrichLoop (search : SearchOracle) :
    Nat → List Row → EnrichCache → List Row × EnrichCache
  | 0, rows, cache => (rows, cache)
  | _ + 1, [], cache => ([], cache)
  | n + 1, row :: rest, cache =>
      ((enrichRowStep search cache row).1 ::
          (enrichLoop search n rest (enrichRowStep search cache row).2).1,
        (enrichLoop search n rest (enrichRowStep search cache row).2).2)

/-- `enrich_albums_with_spotify` from spotify_enrichment.py. -/
def enrich_albums_with_spotify (search : SearchOracle) (rows : List Row)
    (enrich_spotify : Bool) (max_items : Nat) (cache : EnrichCache) :
    List Row × EnrichCache :=
  if ¬ enrich_spotify ∨ rows = [] then (rows, cache)
  else enrichLoop search (min max_items rows.length) rows cache

/-! ### Job registry operations (src/app/routers/recs.py) -/

/-- The `Job` dataclass. -/
structure Job where
  id : String
  status : String := "queued"
  progress : JobProgress := {}
  result : Option (List Row) := none
  error : Option String := none
  created_at : Time
  updated_at : Time
  expires_at : Time
deriving DecidableEq, Repr

/-- `JOB_REGISTRY`: job id to Job, as an insertion-ordered dict. -/
abbrev JobRegistry := List (String × Job)

/-- `_cleanup_expired_jobs`: delete every job with `expires_at <= now`. -/
def cleanupExpiredJobs (now : Time) (reg : JobRegistry) : JobRegistry :=
  reg.filter fun kj => ! decide (kj.2.expires_at ≤ now)

/-- `_get_job`: sweep first, then look up; 404 when absent. -/
def getJob (now : Time) (reg : JobRegistry) (job_id : String) :
    JobRegistry × Except HTTPError Job :=
  let reg' := cleanupExpiredJobs now reg
  match alGet reg' job_id with
  | none => (reg', .error ⟨404, "Job not found"⟩)
  | some job => (reg', .ok job)

/-- `_store_job`: refresh `updated_at` and `expires_at`, then write. -/
def storeJob (now : Time) (reg : JobRegistry) (job : Job) : JobRegistry :=
  alSet reg job.id
    { job with updated_at := now, expires_at := now + JOB_TTL_MINUTES }

/-- `_update_job_progress`: silently no-op when the job is gone; otherwise
replace the progress and refresh `updated_at` and `expires_at`. -/
def updateJobProgress (now : Time) (reg : JobRegistry) (job_id : String)
    (stage : String) (counts : List (String × Nat)) : JobRegistry :=
  match alGet reg job_id with
  | none => reg
  | some job =>
      alSet reg job_id
        { job with progress := ⟨stage, counts⟩, updated_at := now,
                   expires_at := now + JOB_TTL_MINUTES }

/-- `_mark_job_error`: flip to `error`, store the message, refresh
`updated_at` and `expires_at`. -/
def markJobError (now : Time) (reg : JobRegistry) (job_id : String)
    (message : String) : JobRegistry :=
  match alGet reg job_id with
  | none => reg
  | some job =>
      alSet reg job_id
        { job with status := "error", error := some message,
                   progress := ⟨"error", []⟩, updated_at := now,
                   expires_at := now + JOB_TTL_MINUTES }

/-- The registry mutation at the top of `run_recs_job` (the queued-to-
running transition): sets `status`, `updated_at` and the progress stage —
and nothing else (in particular it does not touch `expires_at`). -/
def markJobRunning (now : Time) (reg : JobRegistry) (job_id : String) :
    JobRegistry :=
  match alGet reg job_id with
  | none => reg
  | some job =>
      alSet reg job_id
        { job with status := "running", updated_at := now,
                   progress := ⟨"resolving_seeds", []⟩ }

/-- The success-path registry mutation at the end of `run_recs_job`: flip
to `done`, store the result, refresh `updated_at` and `expires_at`. -/
def markJobDone (now : Time) (reg : JobRegistry) (job_id : String)
    (rows : List Row) : JobRegistry :=
  match alGet reg job_id with
  | none => reg
  | some job =>
      alSet reg job_id
        { job with status := "done", result := some rows,
                   progress := ⟨"done", [("albums", rows.length)]⟩,
                   updated_at := now, expires_at := now + JOB_TTL_MINUTES }

/-- The external collaborators `run_recs_job` talks to: the MusicBrainz
lookup used by the resolver, the ranking oracle behind
`run_album_recs_query` (which raises `HTTPException(500, ...)` on any
database failure, modelled by the `Except.error` branch), and the Spotify
catalog search used by enrichment. -/
structure RecsOracles where
  fetchArtist : String → FetchOutcome
  queryRecs : List Int → Nat → Nat → Nat → Nat → Except HTTPError (List Row)
  searchCatalog : SearchOracle

/-- The `try:` body of `run_recs_job`, from the first progress update to
the `done` flip.  The state (registry and enrichment cache) is threaded and
is returned alongside the exception when one is raised, matching in-place
mutation of the real registry.  The session-store write on the success path
touches only the out-of-scope session map and is omitted. -/
def runRecsJobBody (o : RecsOracles) (now : Time) (job_id : String)
    (artists : List SimpleArtist) (k window_years min_tracks max_per_tag : Nat)
    (enrich_spotify : Bool) (reg : JobRegistry) (cache : EnrichCache) :
    Except HTTPError Unit × JobRegistry × EnrichCache :=
  let reg := updateJobProgress now reg job_id "resolving_seeds"
    [("artists", artists.length)]
  let (mb_numeric_ids, resolved_names, missed_names) :=
    resolve_mb_artists_from_spotify o.fetchArtist artists
  let seeds_ordered := dedupOrdered mb_numeric_ids
  let reg := updateJobProgress now reg job_id "resolved"
    [("resolved", resolved_names.length), ("missed", missed_names.length),
     ("unique_seeds", seeds_ordered.length)]
  if seeds_ordered = [] then
    (.error ⟨400, "No MusicBrainz artist IDs resolved from input artists"⟩,
     reg, cache)
  else
    let reg := updateJobProgress now reg job_id "fetching_recs"
      [("seeds", seeds_ordered.length)]
    match o.queryRecs seeds_ordered k window_years min_tracks max_per_tag with
    | .error e => (.error e, reg, cache)
    | .ok rows =>
        let reg := updateJobProgress now reg job_id "enriching_spotify"
          [("albums", rows.length)]
        (.ok (),
          markJobDone now reg job_id
            (enrich_albums_with_spotify o.searchCatalog rows enrich_spotify 50
              cache).1,
          (enrich_albums_with_spotify o.searchCatalog rows enrich_spotify 50
            cache).2)

/-- `run_recs_job` from recs.py: return silently when the job is already
gone; otherwise flip to running, run the body, and convert any exception
(HTTPException detail or stringified unexpected exception) into
`_mark_job_error` — the function itself never fails. -/
def run_recs_job (o : RecsOracles) (now : Time) (job_id : String)
    (artists : List SimpleArtist) (k window_years min_tracks max_per_tag : Nat)
    (enrich_spotify : Bool) (reg : JobRegistry) (cache : EnrichCache) :
    JobRegistry × EnrichCache :=
  match alGet reg job_id with
  | none => (reg, cache)
  | some _ =>
      let reg := markJobRunning now reg job_id
      match runRecsJobBody o now job_id artists k window_years min_tracks
          max_per_tag enrich_spotify reg cache with
      | (.ok _, reg', cache') => (reg', cache')
      | (.error e, reg', cache') => (markJobError now reg' job_id e.detail, cache')

/-- `create_recs_job` from recs.py, up to the background-task scheduling
(which runs after the response is sent and is modelled separately by
`run_recs_job`).  Returns the updated registry and either the new job id or
the 400 rejection. -/
def create_recs_job (now : Time) (new_id : String) (reg : JobRegistry)
    (artists : List SimpleArtist) : JobRegistry × Except HTTPError String :=
  if artists = [] then
    (reg, .error ⟨400, "artists list cannot be empty"⟩)
  else
    let reg := cleanupExpiredJobs now reg
    let job : Job :=
      { id := new_id, created_at := now, updated_at := now,
        expires_at := now + JOB_TTL_MINUTES }
    let reg := storeJob now reg job
    (reg, .ok new_id)

/-! ### Taste bucketing engine (src/app/routers/taste.py)

Weights are `float` in the source; they are embedded as rationals, which is
exact on every value appearing in the claims (in particular 60/100 + 25/100
equals 85/100 both in rationals and in IEEE doubles, where
0.6 + 0.25 == 0.85 holds exactly). -/

def STRONG_THRESHOLD : Nat := 20
def MODERATE_THRESHOLD : Nat := 10
def MIN_CLUSTER_SHARE : ℚ := 3 / 100
def CUM_SHARE_TARGET : ℚ := 85 / 100

/-- `_strength_label` from taste.py. -/
def strengthLabel (album_count : Nat) : String :=
  if album_count ≥ STRONG_THRESHOLD then "Strong"
  else if album_count ≥ MODERATE_THRESHOLD then "Moderate"
  else "Weak"

/-- One row of `fetch_user_top_clusters` as the engine consumes it:
`cluster_id` (later cast with `int(...)`) and `weight` (cast with
`float(... or 0)`). -/
structure ClusterWeight where
  cluster_id : Int
  weight : ℚ
deriving DecidableEq, Repr

/-- An element of the `included` list: the cluster row plus its computed
`weight_share`. -/
structure IncludedCluster where
  cluster_id : Int
  weight : ℚ
  weight_share : ℚ
deriving DecidableEq, Repr

/-- The inclusion walk of `taste_profile` (the `for cluster in all_clusters`
loop): walk the clusters in the order supplied, skip shares below
`MIN_CLUSTER_SHARE`, include and accumulate otherwise, and break once the
accumulated share reaches `CUM_SHARE_TARGET`.  Returns the `included` list
and the final `cum_share`. -/
def includedWalk (total_weight : ℚ) :
    List ClusterWeight → ℚ → List IncludedCluster × ℚ
  | [], cum_share => ([], cum_share)
  | c :: rest, cum_share =>
      let weight_share := if total_weight ≠ 0 then c.weight / total_weight else 0
      if weight_share < MIN_CLUSTER_SHARE then includedWalk total_weight rest cum_share
      else
        let cum_share' := cum_share + weight_share
        if CUM_SHARE_TARGET ≤ cum_share' then
          ([⟨c.cluster_id, c.weight, weight_share⟩], cum_share')
        else
          (⟨c.cluster_id, c.weight, weight_share⟩ ::
              (includedWalk total_weight rest cum_share').1,
            (includedWalk total_weight rest cum_share').2)

/-- The cluster-inclusion stage of `taste_profile`: total weight over all
clusters, then the walk starting from `cum_share = 0.0`. -/
def tasteIncluded (all_clusters : List ClusterWeight) :
    List IncludedCluster × ℚ :=
  let total_weight := (all_clusters.map (·.weight)).sum
  includedWalk total_weight all_clusters 0

/-- A row of `fetch_cluster_labels`. -/
structure ClusterLabel where
  label_primary : Option String := none
  label_secondary : Option String := none
  top_spotify_genres : Option (List String) := none
deriving DecidableEq, Repr

/-- `fetch_artist_primary_clusters` output: artist id to the `cluster_id`
of its highest-weight cluster. -/
abbrev ArtistClusterMap := List (Int × Int)

/-- An album row as the bucketing loop consumes it: the `artist_id` field
(`none` when missing or not an int) and an opaque tag for the rest. -/
structure TasteRow where
  artist_id : Option Int := none
  tag : Nat := 0
deriving DecidableEq, Repr

/-- One bucket dict.  `cluster_id = none` is the catch-all "other" bucket,
which lacks the weight fields. -/
structure Bucket where
  cluster_id : Option Int
  label_primary : String
  label_secondary : Option String := none
  top_spotify_genres : List String := []
  weight : Option ℚ := none
  weight_share : Option ℚ := none
  albums : List TasteRow := []
  album_count : Nat := 0
  strength : Option String := none
deriving DecidableEq, Repr

/-- The `buckets` dict: keys are cluster ids or the distinguished
`"other"` key, embedded as `Option Int` with `none` for `"other"`. -/
abbrev BucketMap := List (Option Int × Bucket)

/-- Python `x or default` on an optional string: `None` and `""` are falsy. -/
def pyOrString (x : Option String) (default : String) : String :=
  match x with
  | none => default
  | some s => if s = "" then default else s

/-- The bucket built for one included cluster (`buckets[cid] = {...}`). -/
def mkClusterBucket (cluster_labels : List (Int × ClusterLabel))
    (c : IncludedCluster) : Bucket :=
  let label_info := (alGet cluster_labels c.cluster_id).getD {}
  { cluster_id := some c.cluster_id
    label_primary :=
      pyOrString label_info.label_primary ("Cluster " ++ toString c.cluster_id)
    label_secondary := label_info.label_secondary
    top_spotify_genres := (label_info.top_spotify_genres).getD []
    weight := some c.weight
    weight_share := some c.weight_share
    albums := [] }

/-- The bucket-initialization loop (`for cluster in included: buckets[cid] = ...`). -/
def initBuckets (cluster_labels : List (Int × ClusterLabel)) :
    List IncludedCluster → BucketMap → BucketMap
  | [], bm => bm
  | c :: rest, bm =>
      initBuckets cluster_labels rest
        (alSet bm (some c.cluster_id) (mkClusterBucket cluster_labels c))

/-- The `buckets["other"]` entry. -/
def otherBucket : Bucket :=
  { cluster_id := none, label_primary := "Other" }

/-- The `bucket_key` an album is routed to: its artist's primary cluster
when that cluster has a bucket, otherwise `"other"`
(`bucket_key = cid if cid in buckets else "other"`, with `cid = "other"`
already when the row has no int `artist_id` or no cluster assignment). -/
def albumCid (cluster_map : ArtistClusterMap) (album : TasteRow) : Option Int :=
  match album.artist_id with
  | some aid => alGet cluster_map aid
  | none => none

def assignKey (cluster_map : ArtistClusterMap) (bm : BucketMap)
    (album : TasteRow) : Option Int :=
  match albumCid cluster_map album with
  | some c => if (alGet bm (some c)).isSome then some c else none
  | none => none

/-- Route one album: append it to its bucket's album list
(`buckets[bucket_key]["albums"].append(album)`; the key is always present
because the `"other"` bucket exists). -/
def routeOne (cluster_map : ArtistClusterMap) (bm : BucketMap) (album : TasteRow) :
    BucketMap :=
  match alGet bm (assignKey cluster_map bm album) with
  | some b =>
      alSet bm (assignKey cluster_map bm album)
        { b with albums := b.albums ++ [album] }
  | none => bm

/-- The album-routing loop (`for album in albums: ...append(album)`). -/
def routeAlbums (cluster_map : ArtistClusterMap) :
    List TasteRow → BucketMap → BucketMap
  | [], bm => bm
  | album :: rest, bm =>
      routeAlbums cluster_map rest (routeOne cluster_map bm album)

/-- `ordered_bucket_keys`: the included cluster ids whose key is present in
the bucket dict, followed by `"other"`. -/
def orderedBucketKeys (included : List IncludedCluster) (bm : BucketMap) :
    List (Option Int) :=
  (included.filterMap fun c =>
    if (alGet bm (some c.cluster_id)).isSome then some (some c.cluster_id)
    else none) ++ [none]

/-- The finalization loop: compute `album_count`, hide empty non-Other
buckets (counting them) and an empty Other bucket, attach strength labels
to non-Other buckets.  Returns `(result_buckets, hidden_zero_album_bucket_count)`. -/
def finalizeBuckets (bm : BucketMap) :
    List (Option Int) → List Bucket × Nat
  | [] => ([], 0)
  | key :: rest =>
      match alGet bm key with
      | none => finalizeBuckets bm rest
      | some b =>
          let count := b.albums.length
          match b.cluster_id with
          | some _ =>
              if count = 0 then
                ((finalizeBuckets bm rest).1, (finalizeBuckets bm rest).2 + 1)
              else
                ({ b with album_count := count
                          strength := some (strengthLabel count) } ::
                    (finalizeBuckets bm rest).1,
                  (finalizeBuckets bm rest).2)
          | none =>
              if count = 0 then finalizeBuckets bm rest
              else ({ b with album_count := count } ::
                  (finalizeBuckets bm rest).1,
                (finalizeBuckets bm rest).2)

/-- The validation fields of `taste_profile` the claims are about. -/
structure TasteValidation where
  bucket_count : Nat
  album_total : Nat
  ok : Bool
  hidden_zero_album_bucket_count : Nat
deriving DecidableEq, Repr

/-- The bucketing stage of `taste_profile` after cluster inclusion: build
the bucket dict, route every album, order and finalize the buckets, and
compute the validation report's counts. -/
def tasteBuckets (included : List IncludedCluster)
    (cluster_labels : List (Int × ClusterLabel))
    (cluster_map : ArtistClusterMap) (albums : List TasteRow) :
    List Bucket × TasteValidation :=
  let bm := routeAlbums cluster_map albums
    (alSet (initBuckets cluster_labels included []) none otherBucket)
  let result_buckets := (finalizeBuckets bm (orderedBucketKeys included bm)).1
  (result_buckets,
   { bucket_count := result_buckets.length
     album_total := (result_buckets.map (·.albums.length)).sum
     ok := decide ((result_buckets.map (·.albums.length)).sum = albums.length)
     hidden_zero_album_bucket_count :=
       (finalizeBuckets bm (orderedBucketKeys included bm)).2 })

/-! ### Helper lemmas on association lists -/

theorem alGet_alSet_self {κ β : Type} [DecidableEq κ] (d : List (κ × β)) (k : κ)
    (v : β) : alGet (alSet d k v) k = some v := by
  induction d with
  | nil => simp [alGet, alSet]
  | cons kv rest ih =>
      obtain ⟨k0, v0⟩ := kv
      by_cases h : k0 = k
      · simp [alGet, alSet, h]
      · simp [alGet, alSet, h, ih]

theorem alGet_alSet_ne {κ β : Type} [DecidableEq κ] (d : List (κ × β))
    (k k' : κ) (v : β) (h : k ≠ k') : alGet (alSet d k v) k' = alGet d k' := by
  induction d with
  | nil => simp [alGet, alSet, h]
  | cons kv rest ih =>
      obtain ⟨k0, v0⟩ := kv
      by_cases h0 : k0 = k
      · subst h0
        simp [alGet, alSet, h]
      · simp only [alSet, if_neg h0]
        by_cases h1 : k0 = k'
        · simp [alGet, h1]
        · simp [alGet, h1, ih]

theorem alGet_eq_none_of_not_mem {κ β : Type} [DecidableEq κ]
    (d : List (κ × β)) (k : κ) (h : k ∉ alKeys d) : alGet d k = none := by
  induction d with
  | nil => simp [alGet]
  | cons kv rest ih =>
      obtain ⟨k0, v0⟩ := kv
      simp only [alKeys, List.map_cons, List.mem_cons] at h
      push_neg at h
      simp [alGet, Ne.symm h.1, ih (by simpa [alKeys] using h.2)]

theorem alGet_isSome_iff_mem {κ β : Type} [DecidableEq κ]
    (d : List (κ × β)) (k : κ) : (alGet d k).isSome = true ↔ k ∈ alKeys d := by
  induction d with
  | nil => simp [alGet, alKeys]
  | cons kv rest ih =>
      obtain ⟨k0, v0⟩ := kv
      by_cases h : k0 = k
      · simp [alGet, alKeys, h]
      · simp [alGet, alKeys, h, ih, Ne.symm h]

theorem alGet_mem {κ β : Type} [DecidableEq κ] (d : List (κ × β)) (k : κ)
    (v : β) (h : alGet d k = some v) : (k, v) ∈ d := by
  induction d with
  | nil => simp [alGet] at h
  | cons kv rest ih =>
      obtain ⟨k0, v0⟩ := kv
      by_cases h0 : k0 = k
      · subst h0
        simp [alGet] at h
        subst h
        exact List.mem_cons_self _ _
      · simp only [alGet, if_neg h0] at h
        exact List.mem_cons_of_mem _ (ih h)

theorem alSet_eq_append_of_not_mem {κ β : Type} [DecidableEq κ]
    (d : List (κ × β)) (k : κ) (v : β) (h : k ∉ alKeys d) :
    alSet d k v = d ++ [(k, v)] := by
  induction d with
  | nil => simp [alSet]
  | cons kv rest ih =>
      obtain ⟨k0, v0⟩ := kv
      simp only [alKeys, List.map_cons, List.mem_cons] at h
      push_neg at h
      simp [alSet, Ne.symm h.1, ih (by simpa [alKeys] using h.2)]

theorem alKeys_alSet_of_mem {κ β : Type} [DecidableEq κ]
    (d : List (κ × β)) (k : κ) (v : β) (h : k ∈ alKeys d) :
    alKeys (alSet d k v) = alKeys d := by
  induction d with
  | nil => simp [alKeys] at h
  | cons kv rest ih =>
      obtain ⟨k0, v0⟩ := kv
      by_cases h0 : k0 = k
      · simp [alSet, alKeys, h0]
      · simp only [alKeys, List.map_cons, List.mem_cons] at h
        rcases h with h | h
        · exact absurd h.symm h0
        · have hrest := ih (by simpa [alKeys] using h)
          simp only [alKeys] at hrest
          simp [alSet, alKeys, h0, hrest]

/-! ### C1: resolver accounting -/

/-- The resolver's accounting invariant as it actually holds: every artist
whose external lookup returns (rather than raises) lands in exactly one of
the two name lists. -/
theorem resolve_accounts_for_nonraising
    (fetch : String → FetchOutcome) (artists : List SimpleArtist) :
    (resolve_mb_artists_from_spotify fetch artists).2.1.length +
      (resolve_mb_artists_from_spotify fetch artists).2.2.length =
      (artists.filter fun a => fetch a.name ≠ FetchOutcome.raises).length := by
  induction artists with
  | nil => simp [resolve_mb_artists_from_spotify]
  | cons artist rest ih =>
      rcases hrec : resolve_mb_artists_from_spotify fetch rest with ⟨ids, res, mis⟩
      rw [hrec] at ih
      simp only [ne_eq, decide_not] at ih ⊢
      cases h : fetch artist.name with
      | raises =>
          simp only [resolve_mb_artists_from_spotify, hrec, h, List.filter_cons]
          simpa [h] using ih
      | notFound =>
          simp only [resolve_mb_artists_from_spotify, hrec, h, List.filter_cons]
          simp [ih]
          omega
      | found internalId =>
          cases internalId with
          | none =>
              simp only [resolve_mb_artists_from_spotify, hrec, h, List.filter_cons]
              simp [ih]
              omega
          | some n =>
              simp only [resolve_mb_artists_from_spotify, hrec, h, List.filter_cons]
              simp [ih]
              omega

/-- C1 counterexample: a single artist whose external lookup raises an
exception is recorded neither as resolved nor as missed (the `except`
branch in `resolve_mb_artists_from_spotify` just `continue`s), so the
resolved-plus-missed total falls short of the input length. -/
theorem resolve_exception_artist_unaccounted :
    ¬ ((resolve_mb_artists_from_spotify (fun _ => FetchOutcome.raises)
          [{ name := "Radiohead" }]).2.1.length +
        (resolve_mb_artists_from_spotify (fun _ => FetchOutcome.raises)
          [{ name := "Radiohead" }]).2.2.length =
        ([{ name := "Radiohead" }] : List SimpleArtist).length) := by
  decide

/-! ### C10: create with empty artist list -/

/-- C10: `create_recs_job` called with an empty artist list rejects with
the 400 client error before the expiry sweep and before any job record is
stored: the registry it returns is exactly the registry it was given. -/
theorem create_recs_job_empty_rejects (now : Time) (new_id : String)
    (reg : JobRegistry) :
    create_recs_job now new_id reg [] =
      (reg, Except.error ⟨400, "artists list cannot be empty"⟩) := by
  simp [create_recs_job]

/-! ### C2: expiry refresh on job mutations -/

/-- C2 counterexample: the queued-to-running transition of `run_recs_job`
mutates the job (status and progress change) but leaves `expires_at`
exactly where it was, instead of recomputing it to `now + TTL`. -/
theorem running_transition_keeps_expiry :
    ((alGet (markJobRunning 10
        [("j", { id := "j", created_at := 0, updated_at := 0, expires_at := 60 })]
        "j") "j").map Job.status = some "running") ∧
    ((alGet (markJobRunning 10
        [("j", { id := "j", created_at := 0, updated_at := 0, expires_at := 60 })]
        "j") "j").map Job.expires_at = some 60) ∧
    (60 : Time) ≠ 10 + JOB_TTL_MINUTES := by
  refine ⟨?_, ?_, by decide⟩ <;> rfl

/-- C2 as it actually holds: the progress update, the error mark, the done
flip and `_store_job` all recompute `expires_at` to `now + TTL`, while the
queued-to-running transition leaves `expires_at` unchanged. -/
theorem job_mutations_refresh_expiry
    (now : Time) (reg : JobRegistry) (job_id stage msg : String)
    (counts : List (String × Nat)) (rows : List Row) (job : Job)
    (h : alGet reg job_id = some job) :
    ((alGet (updateJobProgress now reg job_id stage counts) job_id).map
        Job.expires_at = some (now + JOB_TTL_MINUTES)) ∧
    ((alGet (markJobError now reg job_id msg) job_id).map
        Job.expires_at = some (now + JOB_TTL_MINUTES)) ∧
    ((alGet (markJobDone now reg job_id rows) job_id).map
        Job.expires_at = some (now + JOB_TTL_MINUTES)) ∧
    ((alGet (storeJob now reg job) job.id).map
        Job.expires_at = some (now + JOB_TTL_MINUTES)) ∧
    ((alGet (markJobRunning now reg job_id) job_id).map
        Job.expires_at = some job.expires_at) := by
  refine ⟨?_, ?_, ?_, ?_, ?_⟩ <;>
    simp [updateJobProgress, markJobError, markJobDone, storeJob,
      markJobRunning, h, alGet_alSet_self]

theorem job_mutations_refresh_expiry_witness :
    ((alGet (updateJobProgress 10
        [("j", { id := "j", created_at := 0, updated_at := 0, expires_at := 60 })]
        "j" "resolved" []) "j").map Job.expires_at = some (10 + JOB_TTL_MINUTES)) ∧
    ((alGet (markJobError 10
        [("j", { id := "j", created_at := 0, updated_at := 0, expires_at := 60 })]
        "j" "boom") "j").map Job.expires_at = some (10 + JOB_TTL_MINUTES)) ∧
    ((alGet (markJobDone 10
        [("j", { id := "j", created_at := 0, updated_at := 0, expires_at := 60 })]
        "j" []) "j").map Job.expires_at = some (10 + JOB_TTL_MINUTES)) ∧
    ((alGet (storeJob 10
        [("j", { id := "j", created_at := 0, updated_at := 0, expires_at := 60 })]
        { id := "j", created_at := 0, updated_at := 0, expires_at := 60 }) "j").map
        Job.expires_at = some (10 + JOB_TTL_MINUTES)) ∧
    ((alGet (markJobRunning 10
        [("j", { id := "j", created_at := 0, updated_at := 0, expires_at := 60 })]
        "j") "j").map Job.expires_at = some 60) :=
  job_mutations_refresh_expiry 10
    [("j", { id := "j", created_at := 0, updated_at := 0, expires_at := 60 })]
    "j" "resolved" "boom" [] []
    { id := "j", created_at := 0, updated_at := 0, expires_at := 60 }
    (by simp [alGet])

/-! ### C6: expired jobs are absent from status lookups -/

theorem alGet_filter_eq_none {κ β : Type} [DecidableEq κ]
    (d : List (κ × β)) (p : κ × β → Bool) (k : κ) (v : β)
    (hnodup : (alKeys d).Nodup) (hget : alGet d k = some v)
    (hp : p (k, v) = false) : alGet (d.filter p) k = none := by
  induction d with
  | nil => simp [alGet] at hget
  | cons kv rest ih =>
      obtain ⟨k0, v0⟩ := kv
      simp only [alKeys, List.map_cons, List.nodup_cons] at hnodup
      by_cases h0 : k0 = k
      · subst h0
        simp [alGet] at hget
        subst hget
        have hout : k0 ∉ alKeys (rest.filter p) :=
          fun hmem => hnodup.1 (((List.filter_sublist rest).map Prod.fst).subset hmem)
        simp [List.filter_cons, hp, alGet_eq_none_of_not_mem _ _ hout]
      · simp only [alGet, if_neg h0] at hget
        have htail := ih (by simpa [alKeys] using hnodup.2) hget
        cases hseen : p (k0, v0) <;>
          simp [List.filter_cons, hseen, alGet, h0, htail]

/-- C6: a job whose `expires_at` lies in the past is deleted by the sweep
that `_get_job` runs first, so the status lookup fails with the 404
NotFound error even though the job record was present. -/
theorem expired_job_absent_from_status (now : Time) (reg : JobRegistry)
    (job_id : String) (job : Job) (hnodup : (alKeys reg).Nodup)
    (hget : alGet reg job_id = some job) (hexp : job.expires_at < now) :
    (getJob now reg job_id).2 = Except.error ⟨404, "Job not found"⟩ := by
  have hnone : alGet (reg.filter fun kj => !decide (kj.2.expires_at ≤ now))
      job_id = none :=
    alGet_filter_eq_none reg _ job_id job hnodup hget
      (by simp [Nat.le_of_lt hexp])
  simp [getJob, cleanupExpiredJobs, hnone]

theorem expired_job_absent_from_status_witness :
    (getJob 100
      [("j", { id := "j", created_at := 0, updated_at := 0, expires_at := 60 })]
      "j").2 = Except.error ⟨404, "Job not found"⟩ :=
  expired_job_absent_from_status 100
    [("j", { id := "j", created_at := 0, updated_at := 0, expires_at := 60 })]
    "j" { id := "j", created_at := 0, updated_at := 0, expires_at := 60 }
    (by simp [alKeys]) (by simp [alGet]) (by decide)

/-- Unfolding equation for `includedWalk` on a cons cell, with the
let-bound `weight_share` expanded. -/
theorem includedWalk_cons (total : ℚ) (c : ClusterWeight)
    (rest : List ClusterWeight) (cum : ℚ) :
    includedWalk total (c :: rest) cum =
      if (if total ≠ 0 then c.weight / total else 0) < MIN_CLUSTER_SHARE then
        includedWalk total rest cum
      else if CUM_SHARE_TARGET ≤
          cum + (if total ≠ 0 then c.weight / total else 0) then
        ([⟨c.cluster_id, c.weight, if total ≠ 0 then c.weight / total else 0⟩],
          cum + (if total ≠ 0 then c.weight / total else 0))
      else
        (⟨c.cluster_id, c.weight, if total ≠ 0 then c.weight / total else 0⟩ ::
            (includedWalk total rest
              (cum + (if total ≠ 0 then c.weight / total else 0))).1,
          (includedWalk total rest
            (cum + (if total ≠ 0 then c.weight / total else 0))).2) := rfl

/-! ### C3: the engine does not re-derive cluster order -/

/-- C3 counterexample: the engine walks the cluster list exactly in the
order supplied (it never sorts and never tie-breaks by `cluster_id`), so on
the reversal of the weight-descending list `[(1,60),(2,25),(3,10),(4,5)]`
(a permutation of it, as the first conjunct records) the included-cluster
set changes: cluster 4 is included for the reversed input but not for the
original one. -/
theorem included_set_depends_on_input_order :
    (([⟨1, 60⟩, ⟨2, 25⟩, ⟨3, 10⟩, ⟨4, 5⟩] : List ClusterWeight).reverse =
      [⟨4, 5⟩, ⟨3, 10⟩, ⟨2, 25⟩, ⟨1, 60⟩]) ∧
    ((tasteIncluded [⟨4, 5⟩, ⟨3, 10⟩, ⟨2, 25⟩, ⟨1, 60⟩]).1.map (·.cluster_id) =
      [4, 3, 2, 1]) ∧
    ((tasteIncluded [⟨1, 60⟩, ⟨2, 25⟩, ⟨3, 10⟩, ⟨4, 5⟩]).1.map (·.cluster_id) =
      [1, 2]) ∧
    (4 : Int) ∈ (tasteIncluded [⟨4, 5⟩, ⟨3, 10⟩, ⟨2, 25⟩, ⟨1, 60⟩]).1.map
      (·.cluster_id) ∧
    (4 : Int) ∉ (tasteIncluded [⟨1, 60⟩, ⟨2, 25⟩, ⟨3, 10⟩, ⟨4, 5⟩]).1.map
      (·.cluster_id) := by
  refine ⟨rfl, ?_, ?_, ?_, ?_⟩ <;>
    norm_num [tasteIncluded, includedWalk, MIN_CLUSTER_SHARE, CUM_SHARE_TARGET]

/-- C3 as it actually holds: the inclusion walk consumes the clusters in
the order the data source supplies them (the SQL in
`fetch_user_top_clusters` orders by weight descending with no deterministic
tie-break) — the included clusters always form an order-preserving sublist
of the input list, and on the weight-descending example the walk includes
exactly clusters 1 and 2; the engine itself performs no sorting, so
permuting the input can change the result. -/
theorem included_walk_follows_input_order :
    (∀ (total_weight cum : ℚ) (cs : List ClusterWeight),
      ((includedWalk total_weight cs cum).1.map (·.cluster_id)).Sublist
        (cs.map (·.cluster_id))) ∧
    ((tasteIncluded [⟨1, 60⟩, ⟨2, 25⟩, ⟨3, 10⟩, ⟨4, 5⟩]).1.map (·.cluster_id) =
      [1, 2]) := by
  constructor
  · intro total_weight cum cs
    induction cs generalizing cum with
    | nil => simp [includedWalk]
    | cons c rest ih =>
        rw [includedWalk_cons]
        set ws := if total_weight ≠ 0 then c.weight / total_weight else 0 with hws
        by_cases h1 : ws < MIN_CLUSTER_SHARE
        · simp only [if_pos h1, List.map_cons]
          exact (ih cum).cons c.cluster_id
        · by_cases h2 : CUM_SHARE_TARGET ≤ cum + ws
          · simp only [if_neg h1, if_pos h2, List.map_cons, List.map_nil]
            exact List.Sublist.cons₂ _ (List.nil_sublist _)
          · simp only [if_neg h1, if_neg h2, List.map_cons]
            exact List.Sublist.cons₂ _ (ih _)
  · norm_num [tasteIncluded, includedWalk, MIN_CLUSTER_SHARE, CUM_SHARE_TARGET]

/-! ### C4: threshold walk -/

/-- C4: inclusion follows the threshold walk of `taste_profile`: clusters
whose share falls below `MIN_CLUSTER_SHARE = 0.03` are never included;
once the accumulated share reaches `CUM_SHARE_TARGET = 0.85` the crossing
cluster is the last one included regardless of what follows; and on the
weight-descending input `[(1,60),(2,25),(3,10),(4,5)]` with total weight
100 the walk includes exactly clusters 1 and 2 with a final cumulative
share of 0.85. -/
theorem threshold_walk_inclusion :
    (∀ (total_weight cum : ℚ) (cs : List ClusterWeight) (c : IncludedCluster),
      c ∈ (includedWalk total_weight cs cum).1 →
        MIN_CLUSTER_SHARE ≤ c.weight_share) ∧
    (∀ rest : List ClusterWeight,
      includedWalk 100 (⟨1, 60⟩ :: ⟨2, 25⟩ :: rest) 0 =
        ([⟨1, 60, 3/5⟩, ⟨2, 25, 1/4⟩], 85/100)) ∧
    (tasteIncluded [⟨1, 60⟩, ⟨2, 25⟩, ⟨3, 10⟩, ⟨4, 5⟩] =
      ([⟨1, 60, 3/5⟩, ⟨2, 25, 1/4⟩], 85/100)) := by
  refine ⟨?_, ?_, ?_⟩
  · intro total_weight cum cs
    induction cs generalizing cum with
    | nil => simp [includedWalk]
    | cons c rest ih =>
        intro x hx
        rw [includedWalk_cons] at hx
        set ws := if total_weight ≠ 0 then c.weight / total_weight else 0 with hws
        by_cases h1 : ws < MIN_CLUSTER_SHARE
        · rw [if_pos h1] at hx
          exact ih cum x hx
        · push_neg at h1
          by_cases h2 : CUM_SHARE_TARGET ≤ cum + ws
          · rw [if_neg (not_lt.mpr h1), if_pos h2] at hx
            simp only [List.mem_singleton] at hx
            subst hx
            exact h1
          · rw [if_neg (not_lt.mpr h1), if_neg h2] at hx
            simp only [List.mem_cons] at hx
            rcases hx with hx | hx
            · subst hx
              exact h1
            · exact ih _ x hx
  · intro rest
    norm_num [includedWalk, MIN_CLUSTER_SHARE, CUM_SHARE_TARGET]
  · norm_num [tasteIncluded, includedWalk, MIN_CLUSTER_SHARE, CUM_SHARE_TARGET]

theorem threshold_walk_inclusion_witness :
    MIN_CLUSTER_SHARE ≤
      (IncludedCluster.mk 1 60 (3/5)).weight_share :=
  threshold_walk_inclusion.1 100 0 [⟨1, 60⟩, ⟨2, 25⟩] ⟨1, 60, 3/5⟩
    (by norm_num [includedWalk, MIN_CLUSTER_SHARE, CUM_SHARE_TARGET])

/-! ### C7: enrichment identity and cap -/

theorem enrichLoop_length (search : SearchOracle) (n : Nat) (rows : List Row)
    (cache : EnrichCache) :
    (enrichLoop search n rows cache).1.length = rows.length := by
  induction n generalizing rows cache with
  | zero => rfl
  | succ n ih =>
      cases rows with
      | nil => rfl
      | cons row rest => simp [enrichLoop, ih]

theorem enrichLoop_get_past_limit (search : SearchOracle) (n : Nat)
    (rows : List Row) (cache : EnrichCache) (i : Nat) (h : n ≤ i) :
    (enrichLoop search n rows cache).1.get? i = rows.get? i := by
  induction n generalizing rows cache i with
  | zero => rfl
  | succ n ih =>
      cases rows with
      | nil => rfl
      | cons row rest =>
          obtain ⟨j, rfl⟩ : ∃ j, i = j + 1 := ⟨i - 1, by omega⟩
          simp only [enrichLoop, List.get?_cons_succ]
          exact ih rest _ j (by omega)

/-- C7: `enrich_albums_with_spotify` with enrichment disabled or an empty
row list is the identity on rows and cache; in every case the output row
list has the input's length and every row from index `max_items` on is
returned exactly as supplied. -/
theorem enrich_disabled_identity_and_cap (search : SearchOracle)
    (rows : List Row) (enrich_spotify : Bool) (max_items : Nat)
    (cache : EnrichCache) :
    (enrich_spotify = false →
      enrich_albums_with_spotify search rows enrich_spotify max_items cache =
        (rows, cache)) ∧
    (rows = [] →
      enrich_albums_with_spotify search rows enrich_spotify max_items cache =
        (rows, cache)) ∧
    ((enrich_albums_with_spotify search rows enrich_spotify max_items cache).1.length
      = rows.length) ∧
    (∀ i, max_items ≤ i →
      (enrich_albums_with_spotify search rows enrich_spotify max_items cache).1.get? i
        = rows.get? i) := by
  refine ⟨?_, ?_, ?_, ?_⟩
  · intro h
    subst h
    simp [enrich_albums_with_spotify]
  · intro h
    subst h
    simp [enrich_albums_with_spotify]
  · unfold enrich_albums_with_spotify
    split
    · rfl
    · exact enrichLoop_length search _ rows cache
  · intro i hi
    unfold enrich_albums_with_spotify
    split
    · rfl
    · exact enrichLoop_get_past_limit search _ rows cache i
        (le_trans (min_le_left _ _) hi)

theorem enrich_disabled_identity_and_cap_witness :
    (enrich_albums_with_spotify (fun _ _ => Except.ok []) [] false 5 [] =
      ([], [])) ∧
    (enrich_albums_with_spotify (fun _ _ => Except.ok []) [] false 5 []).1.get? 7
      = ([] : List Row).get? 7 :=
  ⟨(enrich_disabled_identity_and_cap (fun _ _ => Except.ok []) [] false 5 []).1
      rfl,
    (enrich_disabled_identity_and_cap (fun _ _ => Except.ok []) [] false 5
      []).2.2.2 7 (by decide)⟩

/-! ### C8: latest-release-date selection -/

theorem chooseLatestGo_date_mono (items : List SpotifyAlbumItem)
    (b : Option SpotifyAlbumItem) (bd : Option Nat) (d : Nat) (h : bd = some d) :
    ∃ d', (chooseLatestGo items b bd).2 = some d' ∧ d ≤ d' := by
  induction items generalizing b bd d with
  | nil => exact ⟨d, by simp [chooseLatestGo, h], le_refl d⟩
  | cons item rest ih =>
      subst h
      cases hd : itemDate item with
      | none =>
          cases b with
          | none => simpa [chooseLatestGo, hd] using ih (some item) (some d) d rfl
          | some bi => simpa [chooseLatestGo, hd] using ih (some bi) (some d) d rfl
      | some di =>
          by_cases hlt : d < di
          · obtain ⟨d', hfin, hle⟩ := ih (some item) (some di) di rfl
            exact ⟨d', by simpa [chooseLatestGo, hd, hlt] using hfin,
              le_trans (le_of_lt hlt) hle⟩
          · obtain ⟨d', hfin, hle⟩ := ih b (some d) d rfl
            exact ⟨d', by simpa [chooseLatestGo, hd, hlt] using hfin, hle⟩

theorem chooseLatestGo_ge_elem (items : List SpotifyAlbumItem)
    (b : Option SpotifyAlbumItem) (bd : Option Nat) (it : SpotifyAlbumItem)
    (d : Nat) (hmem : it ∈ items) (hd : itemDate it = some d) :
    ∃ d', (chooseLatestGo items b bd).2 = some d' ∧ d ≤ d' := by
  induction items generalizing b bd with
  | nil => simp at hmem
  | cons item rest ih =>
      rcases List.mem_cons.mp hmem with rfl | hmem'
      · cases bd with
        | none =>
            cases b with
            | none =>
                simpa [chooseLatestGo, hd] using
                  chooseLatestGo_date_mono rest (some it) (some d) d rfl
            | some bi =>
                simpa [chooseLatestGo, hd] using
                  chooseLatestGo_date_mono rest (some it) (some d) d rfl
        | some bdv =>
            by_cases hlt : bdv < d
            · simpa [chooseLatestGo, hd, hlt] using
                chooseLatestGo_date_mono rest (some it) (some d) d rfl
            · obtain ⟨d', hfin, hle⟩ :=
                chooseLatestGo_date_mono rest b (some bdv) bdv rfl
              exact ⟨d', by simpa [chooseLatestGo, hd, hlt] using hfin,
                le_trans (by omega) hle⟩
      · cases hdi : itemDate item with
        | none =>
            cases b with
            | none => simpa [chooseLatestGo, hdi] using ih (some item) bd hmem'
            | some bi => simpa [chooseLatestGo, hdi] using ih (some bi) bd hmem'
        | some di =>
            cases bd with
            | none => simpa [chooseLatestGo, hdi] using ih (some item) (some di) hmem'
            | some bdv =>
                by_cases hlt : bdv < di
                · simpa [chooseLatestGo, hdi, hlt] using
                    ih (some item) (some di) hmem'
                · simpa [chooseLatestGo, hdi, hlt] using ih b (some bdv) hmem'

theorem chooseLatestGo_best_carries_date (items : List SpotifyAlbumItem)
    (b : Option SpotifyAlbumItem) (bd : Option Nat)
    (hpre : ∀ d, bd = some d → ∃ bi, b = some bi ∧ itemDate bi = some d)
    (d' : Nat) (hfin : (chooseLatestGo items b bd).2 = some d') :
    ∃ bi, (chooseLatestGo items b bd).1 = some bi ∧ itemDate bi = some d' := by
  induction items generalizing b bd with
  | nil =>
      simp only [chooseLatestGo] at hfin ⊢
      exact hpre d' hfin
  | cons item rest ih =>
      cases hdi : itemDate item with
      | none =>
          cases b with
          | none =>
              rw [show chooseLatestGo (item :: rest) none bd =
                  chooseLatestGo rest (some item) bd from by
                simp [chooseLatestGo, hdi]] at hfin ⊢
              refine ih (some item) bd ?_ hfin
              intro d hd
              obtain ⟨bi, hbi, _⟩ := hpre d hd
              simp at hbi
          | some bi =>
              rw [show chooseLatestGo (item :: rest) (some bi) bd =
                  chooseLatestGo rest (some bi) bd from by
                simp [chooseLatestGo, hdi]] at hfin ⊢
              exact ih (some bi) bd hpre hfin
      | some di =>
          cases bd with
          | none =>
              rw [show chooseLatestGo (item :: rest) b none =
                  chooseLatestGo rest (some item) (some di) from by
                simp [chooseLatestGo, hdi]] at hfin ⊢
              refine ih (some item) (some di) ?_ hfin
              intro d hd
              exact ⟨item, rfl, by simp_all⟩
          | some bdv =>
              by_cases hlt : bdv < di
              · rw [show chooseLatestGo (item :: rest) b (some bdv) =
                    chooseLatestGo rest (some item) (some di) from by
                  simp [chooseLatestGo, hdi, hlt]] at hfin ⊢
                refine ih (some item) (some di) ?_ hfin
                intro d hd
                exact ⟨item, rfl, by simp_all⟩
              · rw [show chooseLatestGo (item :: rest) b (some bdv) =
                    chooseLatestGo rest b (some bdv) from by
                  simp [chooseLatestGo, hdi, hlt]] at hfin ⊢
                exact ih b (some bdv) hpre hfin

theorem chooseLatestGo_mem (items : List SpotifyAlbumItem)
    (b : Option SpotifyAlbumItem) (bd : Option Nat) (bi : SpotifyAlbumItem)
    (hfin : (chooseLatestGo items b bd).1 = some bi) :
    b = some bi ∨ bi ∈ items := by
  induction items generalizing b bd with
  | nil =>
      simp only [chooseLatestGo] at hfin
      exact Or.inl hfin
  | cons item rest ih =>
      cases hdi : itemDate item with
      | none =>
          cases b with
          | none =>
              rw [show chooseLatestGo (item :: rest) none bd =
                  chooseLatestGo rest (some item) bd from by
                simp [chooseLatestGo, hdi]] at hfin
              rcases ih (some item) bd hfin with h | h
              · exact Or.inr (by simp_all)
              · exact Or.inr (List.mem_cons_of_mem _ h)
          | some b0 =>
              rw [show chooseLatestGo (item :: rest) (some b0) bd =
                  chooseLatestGo rest (some b0) bd from by
                simp [chooseLatestGo, hdi]] at hfin
              rcases ih (some b0) bd hfin with h | h
              · exact Or.inl h
              · exact Or.inr (List.mem_cons_of_mem _ h)
      | some di =>
          cases bd with
          | none =>
              rw [show chooseLatestGo (item :: rest) b none =
                  chooseLatestGo rest (some item) (some di) from by
                simp [chooseLatestGo, hdi]] at hfin
              rcases ih (some item) (some di) hfin with h | h
              · exact Or.inr (by simp_all)
              · exact Or.inr (List.mem_cons_of_mem _ h)
          | some bdv =>
              by_cases hlt : bdv < di
              · rw [show chooseLatestGo (item :: rest) b (some bdv) =
                    chooseLatestGo rest (some item) (some di) from by
                  simp [chooseLatestGo, hdi, hlt]] at hfin
                rcases ih (some item) (some di) hfin with h | h
                · exact Or.inr (by simp_all)
                · exact Or.inr (List.mem_cons_of_mem _ h)
              · rw [show chooseLatestGo (item :: rest) b (some bdv) =
                    chooseLatestGo rest b (some bdv) from by
                  simp [chooseLatestGo, hdi, hlt]] at hfin
                rcases ih b (some bdv) hfin with h | h
                · exact Or.inl h
                · exact Or.inr (List.mem_cons_of_mem _ h)

/-- C8: `_choose_latest_album` selects, among candidates whose release date
parses, one whose parsed date is maximal (so the chosen candidate's date is
at least every parseable candidate's date); the chosen candidate always
comes from the input list; and a candidate with an unparseable or missing
date is chosen only when no candidate parses at all. -/
theorem choose_latest_album_selects_latest (items : List SpotifyAlbumItem) :
    (∀ it ∈ items, ∀ d, itemDate it = some d →
      ∃ b d', (chooseLatestAlbum items).1 = some b ∧ itemDate b = some d' ∧
        d ≤ d') ∧
    (∀ b, (chooseLatestAlbum items).1 = some b → b ∈ items) ∧
    (∀ b, (chooseLatestAlbum items).1 = some b → itemDate b = none →
      ∀ it ∈ items, itemDate it = none) := by
  refine ⟨?_, ?_, ?_⟩
  · intro it hmem d hd
    obtain ⟨d', hfin, hle⟩ := chooseLatestGo_ge_elem items none none it d hmem hd
    obtain ⟨bi, hbi, hbid⟩ := chooseLatestGo_best_carries_date items none none
      (by simp) d' hfin
    exact ⟨bi, d', hbi, hbid, hle⟩
  · intro b hb
    rcases chooseLatestGo_mem items none none b hb with h | h
    · simp at h
    · exact h
  · intro b hb hbnone it hmem
    cases hd : itemDate it with
    | none => rfl
    | some d =>
        obtain ⟨d', hfin, _⟩ := chooseLatestGo_ge_elem items none none it d hmem hd
        obtain ⟨bi, hbi, hbid⟩ := chooseLatestGo_best_carries_date items none none
          (by simp) d' hfin
        rw [show bi = b from by
          have := hbi.symm.trans hb
          simpa using this] at hbid
        rw [hbid] at hbnone
        simp at hbnone

theorem choose_latest_album_selects_latest_witness :
    ∃ b d', (chooseLatestAlbum
        [{ id := some "old", release_date := some "2019-03-01" },
         { id := some "new", release_date := some "2021-07-09" },
         { id := some "odd", release_date := some "not-a-date" }]).1 = some b ∧
      itemDate b = some d' ∧ 20190301 ≤ d' :=
  (choose_latest_album_selects_latest
      [{ id := some "old", release_date := some "2019-03-01" },
       { id := some "new", release_date := some "2021-07-09" },
       { id := some "odd", release_date := some "not-a-date" }]).1
    { id := some "old", release_date := some "2019-03-01" }
    (by simp) 20190301 (by decide)

/-! ### C5: zero seeds and the no-exception guarantee of run_recs_job -/

theorem alGet_updateJobProgress_self (now : Time) (reg : JobRegistry)
    (job_id stage : String) (counts : List (String × Nat)) :
    alGet (updateJobProgress now reg job_id stage counts) job_id =
      (alGet reg job_id).map fun job =>
        { job with progress := ⟨stage, counts⟩, updated_at := now,
                   expires_at := now + JOB_TTL_MINUTES } := by
  unfold updateJobProgress
  cases h : alGet reg job_id with
  | none => simp [h]
  | some job => simp [h, alGet_alSet_self]

theorem alGet_markJobRunning_self (now : Time) (reg : JobRegistry)
    (job_id : String) :
    alGet (markJobRunning now reg job_id) job_id =
      (alGet reg job_id).map fun job =>
        { job with status := "running", updated_at := now,
                   progress := ⟨"resolving_seeds", []⟩ } := by
  unfold markJobRunning
  cases h : alGet reg job_id with
  | none => simp [h]
  | some job => simp [h, alGet_alSet_self]

theorem alGet_markJobError_self (now : Time) (reg : JobRegistry)
    (job_id message : String) :
    alGet (markJobError now reg job_id message) job_id =
      (alGet reg job_id).map fun job =>
        { job with status := "error", error := some message,
                   progress := ⟨"error", []⟩, updated_at := now,
                   expires_at := now + JOB_TTL_MINUTES } := by
  unfold markJobError
  cases h : alGet reg job_id with
  | none => simp [h]
  | some job => simp [h, alGet_alSet_self]

theorem alGet_markJobDone_self (now : Time) (reg : JobRegistry)
    (job_id : String) (rows : List Row) :
    alGet (markJobDone now reg job_id rows) job_id =
      (alGet reg job_id).map fun job =>
        { job with status := "done", result := some rows,
                   progress := ⟨"done", [("albums", rows.length)]⟩,
                   updated_at := now, expires_at := now + JOB_TTL_MINUTES } := by
  unfold markJobDone
  cases h : alGet reg job_id with
  | none => simp [h]
  | some job => simp [h, alGet_alSet_self]

/-- C5: for a job still present in the registry, `run_recs_job` always
drives it to a terminal status (`done` or `error`) — the catch-all except
clauses convert every pipeline exception into the job's `error` state, so
the background task itself never fails — and when artist resolution yields
zero seeds the job ends in status `error` (never `done`) carrying exactly
the client-class "no seeds resolved" message. -/
theorem run_recs_job_zero_seeds_and_terminal (o : RecsOracles) (now : Time)
    (job_id : String) (artists : List SimpleArtist)
    (k window_years min_tracks max_per_tag : Nat) (enrich_spotify : Bool)
    (reg : JobRegistry) (cache : EnrichCache) (job : Job)
    (hpresent : alGet reg job_id = some job) :
    (dedupOrdered
        (resolve_mb_artists_from_spotify o.fetchArtist artists).1 = [] →
      ((alGet (run_recs_job o now job_id artists k window_years min_tracks
          max_per_tag enrich_spotify reg cache).1 job_id).map Job.status =
        some "error") ∧
      ((alGet (run_recs_job o now job_id artists k window_years min_tracks
          max_per_tag enrich_spotify reg cache).1 job_id).bind Job.error =
        some "No MusicBrainz artist IDs resolved from input artists") ∧
      ((alGet (run_recs_job o now job_id artists k window_years min_tracks
          max_per_tag enrich_spotify reg cache).1 job_id).map Job.status ≠
        some "done")) ∧
    (((alGet (run_recs_job o now job_id artists k window_years min_tracks
        max_per_tag enrich_spotify reg cache).1 job_id).map Job.status =
      some "done") ∨
     ((alGet (run_recs_job o now job_id artists k window_years min_tracks
        max_per_tag enrich_spotify reg cache).1 job_id).map Job.status =
      some "error")) := by
  simp only [run_recs_job, hpresent]
  by_cases hseeds : dedupOrdered
      (resolve_mb_artists_from_spotify o.fetchArtist artists).1 = []
  · simp only [runRecsJobBody, hseeds, if_pos rfl]
    constructor
    · intro _
      refine ⟨?_, ?_, ?_⟩ <;>
        simp [alGet_markJobError_self, alGet_updateJobProgress_self,
          alGet_markJobRunning_self, hpresent]
    · right
      simp [alGet_markJobError_self, alGet_updateJobProgress_self,
        alGet_markJobRunning_self, hpresent]
  · simp only [runRecsJobBody, if_neg hseeds]
    cases hq : o.queryRecs
        (dedupOrdered (resolve_mb_artists_from_spotify o.fetchArtist artists).1)
        k window_years min_tracks max_per_tag with
    | error e =>
        constructor
        · intro h
          exact absurd h hseeds
        · right
          simp [alGet_markJobError_self, alGet_updateJobProgress_self,
            alGet_markJobRunning_self, hpresent]
    | ok rows =>
        constructor
        · intro h
          exact absurd h hseeds
        · left
          simp [alGet_markJobDone_self, alGet_updateJobProgress_self,
            alGet_markJobRunning_self, hpresent]

theorem run_recs_job_zero_seeds_witness :
    ((alGet (run_recs_job
        { fetchArtist := fun _ => FetchOutcome.notFound,
          queryRecs := fun _ _ _ _ _ => Except.ok [],
          searchCatalog := fun _ _ => Except.ok [] }
        5 "j" [{ name := "X" }] 50 1 3 2 true
        [("j", { id := "j", created_at := 0, updated_at := 0, expires_at := 60 })]
        []).1 "j").map Job.status = some "error") ∧
    ((alGet (run_recs_job
        { fetchArtist := fun _ => FetchOutcome.notFound,
          queryRecs := fun _ _ _ _ _ => Except.ok [],
          searchCatalog := fun _ _ => Except.ok [] }
        5 "j" [{ name := "X" }] 50 1 3 2 true
        [("j", { id := "j", created_at := 0, updated_at := 0, expires_at := 60 })]
        []).1 "j").bind Job.error =
      some "No MusicBrainz artist IDs resolved from input artists") ∧
    ((alGet (run_recs_job
        { fetchArtist := fun _ => FetchOutcome.notFound,
          queryRecs := fun _ _ _ _ _ => Except.ok [],
          searchCatalog := fun _ _ => Except.ok [] }
        5 "j" [{ name := "X" }] 50 1 3 2 true
        [("j", { id := "j", created_at := 0, updated_at := 0, expires_at := 60 })]
        []).1 "j").map Job.status ≠ some "done") :=
  (run_recs_job_zero_seeds_and_terminal
      { fetchArtist := fun _ => FetchOutcome.notFound,
        queryRecs := fun _ _ _ _ _ => Except.ok [],
        searchCatalog := fun _ _ => Except.ok [] }
      5 "j" [{ name := "X" }] 50 1 3 2 true
      [("j", { id := "j", created_at := 0, updated_at := 0, expires_at := 60 })]
      [] { id := "j", created_at := 0, updated_at := 0, expires_at := 60 }
      (by simp [alGet])).1 (by decide)

/-! ### C9: every album lands in exactly one bucket -/

theorem assignKey_mem (cm : ArtistClusterMap) (bm : BucketMap) (album : TasteRow)
    (hother : (none : Option Int) ∈ alKeys bm) :
    assignKey cm bm album ∈ alKeys bm := by
  cases hcid : albumCid cm album with
  | none => simpa [assignKey, hcid] using hother
  | some c =>
      by_cases h : (alGet bm (some c)).isSome
      · simpa [assignKey, hcid, h] using (alGet_isSome_iff_mem bm (some c)).mp h
      · simpa [assignKey, hcid, h] using hother

theorem assignKey_congr (cm : ArtistClusterMap) (bm1 bm2 : BucketMap)
    (album : TasteRow) (h : alKeys bm1 = alKeys bm2) :
    assignKey cm bm1 album = assignKey cm bm2 album := by
  cases hcid : albumCid cm album with
  | none => simp [assignKey, hcid]
  | some c =>
      have hiff : (alGet bm1 (some c)).isSome = (alGet bm2 (some c)).isSome := by
        by_cases h1 : (alGet bm1 (some c)).isSome
        · have := (alGet_isSome_iff_mem bm1 (some c)).mp h1
          rw [h] at this
          rw [h1, ((alGet_isSome_iff_mem bm2 (some c)).mpr this)]
        · have h2 : ¬ (alGet bm2 (some c)).isSome = true := by
            intro hc
            exact h1 ((alGet_isSome_iff_mem bm1 (some c)).mpr
              (h ▸ (alGet_isSome_iff_mem bm2 (some c)).mp hc))
          simp only [Bool.not_eq_true] at h1 h2
          rw [h1, h2]
      simp only [assignKey, hcid, hiff]

theorem alKeys_routeOne (cm : ArtistClusterMap) (bm : BucketMap)
    (album : TasteRow) : alKeys (routeOne cm bm album) = alKeys bm := by
  unfold routeOne
  cases hb : alGet bm (assignKey cm bm album) with
  | none => rfl
  | some b =>
      exact alKeys_alSet_of_mem _ _ _
        ((alGet_isSome_iff_mem _ _).mp (by simp [hb]))

theorem alKeys_routeAlbums (cm : ArtistClusterMap) (albums : List TasteRow)
    (bm : BucketMap) : alKeys (routeAlbums cm albums bm) = alKeys bm := by
  induction albums generalizing bm with
  | nil => rfl
  | cons a rest ih => rw [routeAlbums, ih, alKeys_routeOne]

theorem routeAlbums_alGet (cm : ArtistClusterMap) (albums : List TasteRow)
    (bm : BucketMap) (hother : (none : Option Int) ∈ alKeys bm)
    (k : Option Int) :
    alGet (routeAlbums cm albums bm) k =
      (alGet bm k).map fun b =>
        { b with albums := b.albums ++
            albums.filter fun a => assignKey cm bm a = k } := by
  induction albums generalizing bm with
  | nil =>
      cases h : alGet bm k <;> simp [routeAlbums, h]
  | cons a rest ih =>
      rw [routeAlbums]
      have hmem := assignKey_mem cm bm a hother
      have hsome := (alGet_isSome_iff_mem bm _).mpr hmem
      obtain ⟨ba, hba⟩ := Option.isSome_iff_exists.mp hsome
      have hroute : routeOne cm bm a =
          alSet bm (assignKey cm bm a) { ba with albums := ba.albums ++ [a] } := by
        unfold routeOne
        rw [hba]
      rw [hroute]
      have hkeys : alKeys (alSet bm (assignKey cm bm a)
          { ba with albums := ba.albums ++ [a] }) = alKeys bm :=
        alKeys_alSet_of_mem _ _ _ hmem
      rw [ih _ (hkeys ▸ hother)]
      have hassign : ∀ x : TasteRow,
          assignKey cm (alSet bm (assignKey cm bm a)
            { ba with albums := ba.albums ++ [a] }) x = assignKey cm bm x :=
        fun x => assignKey_congr cm _ _ x hkeys
      have hfilter : rest.filter (fun x => assignKey cm (alSet bm
            (assignKey cm bm a) { ba with albums := ba.albums ++ [a] }) x = k) =
          rest.filter fun x => assignKey cm bm x = k :=
        List.filter_congr fun x _ => by rw [hassign x]
      by_cases hk : assignKey cm bm a = k
      · subst hk
        rw [alGet_alSet_self, hba, hfilter]
        have : (a :: rest).filter (fun x => assignKey cm bm x =
            assignKey cm bm a) = a :: rest.filter fun x => assignKey cm bm x =
            assignKey cm bm a := by
          rw [List.filter_cons]
          simp
        rw [this]
        simp [List.append_assoc]
      · rw [alGet_alSet_ne _ _ _ _ hk, hfilter]
        have : (a :: rest).filter (fun x => assignKey cm bm x = k) =
            rest.filter fun x => assignKey cm bm x = k := by
          rw [List.filter_cons]
          simp [hk]
        rw [this]

theorem initBuckets_eq (labels : List (Int × ClusterLabel))
    (included : List IncludedCluster) (bm : BucketMap)
    (hnodup : (included.map (·.cluster_id)).Nodup)
    (hdisj : ∀ c ∈ included, (some c.cluster_id : Option Int) ∉ alKeys bm) :
    initBuckets labels included bm =
      bm ++ included.map fun c => (some c.cluster_id, mkClusterBucket labels c) := by
  induction included generalizing bm with
  | nil => simp [initBuckets]
  | cons c rest ih =>
      rw [initBuckets,
        alSet_eq_append_of_not_mem _ _ _ (hdisj c (List.mem_cons_self c rest))]
      rw [List.map_cons, List.nodup_cons] at hnodup
      rw [ih _ hnodup.2]
      · simp
      · intro c' hc'
        have hkeys : alKeys (bm ++ [(some c.cluster_id,
            mkClusterBucket labels c)]) = alKeys bm ++ [some c.cluster_id] := by
          simp [alKeys]
        rw [hkeys]
        intro hmem
        rcases List.mem_append.mp hmem with hmem | hmem
        · exact hdisj c' (List.mem_cons_of_mem c hc') hmem
        · simp only [List.mem_singleton, Option.some.injEq] at hmem
          exact hnodup.1 (hmem ▸ List.mem_map_of_mem (·.cluster_id) hc')

theorem finalizeBuckets_sum (bm : BucketMap) (keys : List (Option Int)) :
    ((finalizeBuckets bm keys).1.map fun b => b.albums.length).sum =
      (keys.map fun k =>
        ((alGet bm k).map fun b => b.albums.length).getD 0).sum := by
  induction keys with
  | nil => rfl
  | cons key rest ih =>
      rw [finalizeBuckets]
      cases hb : alGet bm key with
      | none => simpa [hb] using ih
      | some b =>
          cases hc : b.cluster_id with
          | some cid =>
              by_cases hz : b.albums.length = 0
              · simp [hb, hc, hz, ih]
              · simp [hb, hc, hz, ih]
          | none =>
              by_cases hz : b.albums.length = 0
              · simp [hb, hc, hz, ih]
              · simp [hb, hc, hz, ih]

theorem sum_indicator_zero (keys : List (Option Int)) (x : Option Int)
    (hx : x ∉ keys) :
    (keys.map fun k => if x = k then (1 : Nat) else 0).sum = 0 := by
  induction keys with
  | nil => rfl
  | cons k0 rest ih =>
      simp only [List.mem_cons] at hx
      push_neg at hx
      simp [hx.1, ih hx.2]

theorem sum_indicator_one (keys : List (Option Int)) (x : Option Int)
    (hnodup : keys.Nodup) (hx : x ∈ keys) :
    (keys.map fun k => if x = k then (1 : Nat) else 0).sum = 1 := by
  induction keys with
  | nil => simp at hx
  | cons k0 rest ih =>
      rw [List.nodup_cons] at hnodup
      rcases List.mem_cons.mp hx with rfl | hx'
      · simp [sum_indicator_zero rest x hnodup.1]
      · have hne : x ≠ k0 := fun hxk => hnodup.1 (hxk ▸ hx')
        simp [hne, ih hnodup.2 hx']

theorem filter_length_partition (keys : List (Option Int))
    (f : TasteRow → Option Int) (albums : List TasteRow)
    (hnodup : keys.Nodup) (hmem : ∀ a ∈ albums, f a ∈ keys) :
    (keys.map fun k => (albums.filter fun a => f a = k).length).sum =
      albums.length := by
  induction albums with
  | nil => simp
  | cons a rest ih =>
      have h1 : ∀ k : Option Int,
          ((a :: rest).filter fun x => f x = k).length =
            (if f a = k then 1 else 0) +
              (rest.filter fun x => f x = k).length := by
        intro k
        by_cases h : f a = k <;> simp [List.filter_cons, h, Nat.add_comm]
      have h2 : (keys.map fun k =>
            ((a :: rest).filter fun x => f x = k).length) =
          keys.map fun k => (if f a = k then 1 else 0) +
            (rest.filter fun x => f x = k).length :=
        List.map_congr_left fun k _ => h1 k
      rw [h2, List.sum_map_add,
        sum_indicator_one keys (f a) hnodup (hmem a (List.mem_cons_self a rest)),
        ih fun x hx => hmem x (List.mem_cons_of_mem a hx)]
      simp [Nat.add_comm]

theorem filterMap_present_keys (bm : BucketMap) (included : List IncludedCluster)
    (hall : ∀ c ∈ included, (some c.cluster_id : Option Int) ∈ alKeys bm) :
    (included.filterMap fun c =>
      if (alGet bm (some c.cluster_id)).isSome then
        some (some c.cluster_id) else none) =
      included.map fun c => (some c.cluster_id : Option Int) := by
  induction included with
  | nil => rfl
  | cons c rest ih =>
      have hc := (alGet_isSome_iff_mem bm _).mpr
        (hall c (List.mem_cons_self c rest))
      simp only [List.filterMap_cons, hc, if_pos, List.map_cons]
      rw [ih fun c' h => hall c' (List.mem_cons_of_mem c h)]

theorem orderedBucketKeys_eq (included : List IncludedCluster) (bm : BucketMap)
    (hall : ∀ c ∈ included, (some c.cluster_id : Option Int) ∈ alKeys bm) :
    orderedBucketKeys included bm =
      (included.map fun c => (some c.cluster_id : Option Int)) ++ [none] := by
  unfold orderedBucketKeys
  rw [filterMap_present_keys bm included hall]

/-- C9: in the bucketing stage of `taste_profile`, every album row is
appended to exactly one bucket (its artist's included cluster, or the
catch-all Other bucket), hidden empty buckets hold no albums, so the
returned buckets' album counts sum to the number of input albums and the
validation report's `ok` equality check passes — provided the included
clusters carry distinct cluster ids, as rows of the per-user cluster table
do. -/
theorem taste_buckets_validation_ok (included : List IncludedCluster)
    (labels : List (Int × ClusterLabel)) (cmap : ArtistClusterMap)
    (albums : List TasteRow)
    (hnodup : (included.map (·.cluster_id)).Nodup) :
    (tasteBuckets included labels cmap albums).2.album_total = albums.length ∧
    (tasteBuckets included labels cmap albums).2.ok = true := by
  have hinit : initBuckets labels included [] =
      included.map fun c => (some c.cluster_id, mkClusterBucket labels c) := by
    simpa using initBuckets_eq labels included [] hnodup (by simp [alKeys])
  have hnone_not : (none : Option Int) ∉
      alKeys (included.map fun c =>
        (some c.cluster_id, mkClusterBucket labels c)) := by
    simp [alKeys, List.map_map, Function.comp]
  have hbm0 : alSet (initBuckets labels included []) none otherBucket =
      (included.map fun c => (some c.cluster_id, mkClusterBucket labels c)) ++
        [(none, otherBucket)] := by
    rw [hinit]
    exact alSet_eq_append_of_not_mem _ _ _ hnone_not
  set bm0 := (included.map fun c =>
      (some c.cluster_id, mkClusterBucket labels c)) ++
    [(none, otherBucket)] with hbm0def
  have hkeys0 : alKeys bm0 =
      (included.map fun c => (some c.cluster_id : Option Int)) ++ [none] := by
    simp [hbm0def, alKeys, List.map_map, Function.comp]
  have hother0 : (none : Option Int) ∈ alKeys bm0 := by
    rw [hkeys0]
    simp
  have hempty : ∀ (k : Option Int) (b : Bucket),
      alGet bm0 k = some b → b.albums = [] := by
    intro k b hb
    have hmem := alGet_mem bm0 k b hb
    rw [hbm0def] at hmem
    rcases List.mem_append.mp hmem with hm | hm
    · obtain ⟨c, _, hc⟩ := List.mem_map.mp hm
      have hb2 : mkClusterBucket labels c = b := congrArg Prod.snd hc
      rw [← hb2]
      rfl
    · simp only [List.mem_singleton, Prod.mk.injEq] at hm
      rw [hm.2]
      rfl
  have hkeysR : alKeys (routeAlbums cmap albums bm0) = alKeys bm0 :=
    alKeys_routeAlbums _ _ _
  have hall : ∀ c ∈ included,
      (some c.cluster_id : Option Int) ∈ alKeys (routeAlbums cmap albums bm0) := by
    intro c hc
    rw [hkeysR, hkeys0]
    exact List.mem_append_left _ (List.mem_map_of_mem _ hc)
  have hordered : orderedBucketKeys included (routeAlbums cmap albums bm0) =
      (included.map fun c => (some c.cluster_id : Option Int)) ++ [none] :=
    orderedBucketKeys_eq included _ hall
  have hmapNodup : (included.map fun c =>
      (some c.cluster_id : Option Int)).Nodup := by
    have heq : (included.map fun c => (some c.cluster_id : Option Int)) =
        (included.map (·.cluster_id)).map fun i => (some i : Option Int) := by
      simp [List.map_map]
    rw [heq]
    exact hnodup.map fun a b hab => Option.some.inj hab
  have hkeysNodup : ((included.map fun (c : IncludedCluster) =>
      (some c.cluster_id : Option Int)) ++ [none]).Nodup := by
    rw [List.nodup_append]
    refine ⟨hmapNodup, List.nodup_singleton none, ?_⟩
    intro x hx hx2
    simp only [List.mem_singleton] at hx2
    subst hx2
    obtain ⟨c, _, hc⟩ := List.mem_map.mp hx
    exact Option.noConfusion hc
  have hcount : ∀ k ∈ (included.map fun c =>
      (some c.cluster_id : Option Int)) ++ [none],
      ((alGet (routeAlbums cmap albums bm0) k).map
          fun b => b.albums.length).getD 0 =
        (albums.filter fun a => assignKey cmap bm0 a = k).length := by
    intro k hk
    have hkmem : k ∈ alKeys bm0 := by
      rw [hkeys0]
      exact hk
    obtain ⟨b, hb⟩ := Option.isSome_iff_exists.mp
      ((alGet_isSome_iff_mem _ _).mpr hkmem)
    rw [routeAlbums_alGet cmap albums bm0 hother0 k, hb]
    simp [hempty k b hb]
  have hsum : (((finalizeBuckets (routeAlbums cmap albums bm0)
        (orderedBucketKeys included (routeAlbums cmap albums bm0))).1.map
      fun b => b.albums.length).sum) = albums.length := by
    rw [finalizeBuckets_sum, hordered, List.map_congr_left hcount]
    refine filter_length_partition _ _ albums hkeysNodup fun a _ => ?_
    have := assignKey_mem cmap bm0 a hother0
    rwa [hkeys0] at this
  constructor
  · simp only [tasteBuckets, hbm0]
    exact hsum
  · simp only [tasteBuckets, hbm0]
    simp [hsum]

theorem taste_buckets_validation_ok_witness :
    (tasteBuckets [⟨1, 60, 3/5⟩] [] [] [{ artist_id := none }]).2.album_total =
      ([{ artist_id := none }] : List TasteRow).length ∧
    (tasteBuckets [⟨1, 60, 3/5⟩] [] [] [{ artist_id := none }]).2.ok = true :=
  taste_buckets_validation_ok [⟨1, 60, 3/5⟩] [] [] [{ artist_id := none }]
    (by simp)

end MusicAtlas
